import Mathlib

/-!
Verification of the universal-app-opener core (TypeScript) against its
natural-language specification.

The TypeScript sources under packages/core/src/platforms are shallowly
embedded here.  JavaScript strings are modelled as `List Char`; the
regular expressions of the source are modelled as executable scanning
functions that reproduce the leftmost-match-with-backtracking semantics
of the concrete patterns appearing in the code.  The floating-point
computation `Math.round(18 - Math.log2(meters / 500))` inside
`convertZoom` is abstracted as an integer-valued oracle parameter `rl`,
since every claim about it depends only on the result being an integer
that is subsequently clamped.  The WHATWG `new URL` constructor and
`decodeURIComponent` / `encodeURIComponent` builtins are modelled by
executable functions covering the behaviour the handlers rely on
(scheme and authority validation, query extraction, UTF-8
percent-coding with strict failure for `decodeURIComponent`).
-/

/-- JavaScript strings are modelled as lists of characters. -/
abbrev Str := List Char

/-- ASCII digit test, the JS regex class `\d`. -/
def isDigitC (c : Char) : Bool := 48 ≤ c.toNat && c.toNat ≤ 57

/-- ASCII letter test. -/
def isAsciiAlphaC (c : Char) : Bool :=
  (65 ≤ c.toNat && c.toNat ≤ 90) || (97 ≤ c.toNat && c.toNat ≤ 122)

/-- Lower-case ASCII letter or digit or hyphen: the class `[a-z0-9-]`
used by the zoom subdomain pattern. -/
def isSubChar (c : Char) : Bool :=
  (97 ≤ c.toNat && c.toNat ≤ 122) || isDigitC c || c = '-'

/-- Alphanumeric: the class `[a-zA-Z0-9]` of the zoom password pattern. -/
def isAlnumC (c : Char) : Bool := isAsciiAlphaC c || isDigitC c

/-- Character class `[a-zA-Z0-9_-]` of the YouTube video-id patterns. -/
def isIdChar (c : Char) : Bool := isAsciiAlphaC c || isDigitC c || c = '_' || c = '-'

/-- Hexadecimal digit test. -/
def isHexC (c : Char) : Bool :=
  isDigitC c || (65 ≤ c.toNat && c.toNat ≤ 70) || (97 ≤ c.toNat && c.toNat ≤ 102)

/-- Value of a hexadecimal digit. -/
def hexVal (c : Char) : Nat :=
  if isDigitC c then c.toNat - 48
  else if 65 ≤ c.toNat && c.toNat ≤ 70 then c.toNat - 55
  else c.toNat - 87

/-- Decimal value of a digit string, the exact-integer semantics of
JS `parseInt` on all-digit input (exact as long as the value stays
below 2^53). -/
def digitsVal (cs : Str) : Nat :=
  cs.foldl (fun a c => a * 10 + (c.toNat - 48)) 0

/-- Decimal digit list of a natural number, via `Nat.repr`. -/
def natStr (n : Nat) : Str := (Nat.repr n).data

/-- Decimal digit list of an integer, via its `ToString` instance;
models JS number-to-string interpolation for integral values. -/
def intStr (i : Int) : Str := (toString i).data

/-- Whitespace recognised by JS `String.prototype.trim` (ASCII part
plus the common Unicode space separators; sufficient for the inputs the
handlers see, none of which contain exotic whitespace). -/
def isJsWs (c : Char) : Bool :=
  c.toNat = 32 || c.toNat = 9 || c.toNat = 10 || c.toNat = 13 ||
  c.toNat = 11 || c.toNat = 12 || c.toNat = 0xA0 || c.toNat = 0xFEFF ||
  c.toNat = 0x2028 || c.toNat = 0x2029

/-- Model of JS `trim`: drop whitespace from both ends. -/
def jsTrim (cs : Str) : Str :=
  ((cs.dropWhile isJsWs).reverse.dropWhile isJsWs).reverse

/-- Sequence prefix test (pattern first, text second). -/
def startsWithSeq : Str → Str → Bool
  | [], _ => true
  | _ :: _, [] => false
  | p :: ps, c :: cs => p = c && startsWithSeq ps cs

/-- Substring containment test. -/
def containsSeq (pat : Str) (l : Str) : Bool :=
  startsWithSeq pat l ||
    match l with
    | [] => false
    | _ :: rest => containsSeq pat rest

/-- Lower-case an ASCII character. -/
def lowerC (c : Char) : Char :=
  if 65 ≤ c.toNat && c.toNat ≤ 90 then Char.ofNat (c.toNat + 32) else c

/-- Lower-case a string (ASCII). -/
def lowerStr (cs : Str) : Str := cs.map lowerC

/-- UTF-8 byte sequence of a character. -/
def utf8Bytes (c : Char) : List Nat :=
  let n := c.toNat
  if n < 0x80 then [n]
  else if n < 0x800 then [0xC0 + n / 64, 0x80 + n % 64]
  else if n < 0x10000 then
    [0xE0 + n / 4096, 0x80 + (n / 64) % 64, 0x80 + n % 64]
  else
    [0xF0 + n / 262144, 0x80 + (n / 4096) % 64, 0x80 + (n / 64) % 64, 0x80 + n % 64]

/-- Upper-case hexadecimal digit for a value below 16. -/
def hexDigit (n : Nat) : Char :=
  if n < 10 then Char.ofNat (48 + n) else Char.ofNat (55 + n)

/-- Characters left unescaped by JS `encodeURIComponent`:
`A-Z a-z 0-9 - _ . ! ~ * ' ( )`. -/
def isUnreservedC (c : Char) : Bool :=
  isAsciiAlphaC c || isDigitC c ||
  c = '-' || c = '_' || c = '.' || c = '!' || c = '~' || c = '*' ||
  c = '\'' || c = '(' || c = ')'

/-- Model of JS `encodeURIComponent`: unreserved characters pass
through, everything else becomes upper-case `%XX` per UTF-8 byte. -/
def encodeURIComponent (cs : Str) : Str :=
  cs.foldr
    (fun c acc =>
      (if isUnreservedC c then [c]
       else (utf8Bytes c).foldr
              (fun b acc2 => '%' :: hexDigit (b / 16) :: hexDigit (b % 16) :: acc2) []) ++ acc)
    []

/-- Percent tokenisation for `decodeURIComponent`: a `%` must be
followed by exactly two hexadecimal digits, otherwise the builtin
throws `URIError` (modelled as `none`). -/
def percentTokens : Str → Option (List (Char ⊕ Nat))
  | [] => some []
  | '%' :: rest =>
    match rest with
    | h1 :: h2 :: rest2 =>
      if isHexC h1 && isHexC h2 then
        (percentTokens rest2).map (fun ts => Sum.inr (hexVal h1 * 16 + hexVal h2) :: ts)
      else none
    | _ => none
  | c :: rest => (percentTokens rest).map (fun ts => Sum.inl c :: ts)

/-- Continuation-byte test for UTF-8 decoding. -/
def isContByte (b : Nat) : Bool := 0x80 ≤ b && b ≤ 0xBF

/-- Decode a single character from the token stream: a literal
character passes through, a percent-decoded byte must begin a
well-formed (non-overlong, non-surrogate) UTF-8 sequence whose
continuation bytes are consumed with it; `none` models `URIError`. -/
def utf8DecodeStep : List (Char ⊕ Nat) → Option (Char × List (Char ⊕ Nat))
  | [] => none
  | Sum.inl c :: rest => some (c, rest)
  | Sum.inr b :: rest =>
    if b < 0x80 then some (Char.ofNat b, rest)
    else if 0xC2 ≤ b && b ≤ 0xDF then
      match rest with
      | Sum.inr b2 :: rest2 =>
        if isContByte b2 then
          some (Char.ofNat ((b - 0xC0) * 64 + (b2 - 0x80)), rest2)
        else none
      | _ => none
    else if 0xE0 ≤ b && b ≤ 0xEF then
      match rest with
      | Sum.inr b2 :: Sum.inr b3 :: rest3 =>
        if (if b = 0xE0 then 0xA0 ≤ b2 && b2 ≤ 0xBF
            else if b = 0xED then 0x80 ≤ b2 && b2 ≤ 0x9F
            else isContByte b2) && isContByte b3 then
          some (Char.ofNat ((b - 0xE0) * 4096 + (b2 - 0x80) * 64 + (b3 - 0x80)), rest3)
        else none
      | _ => none
    else if 0xF0 ≤ b && b ≤ 0xF4 then
      match rest with
      | Sum.inr b2 :: Sum.inr b3 :: Sum.inr b4 :: rest4 =>
        if (if b = 0xF0 then 0x90 ≤ b2 && b2 ≤ 0xBF
            else if b = 0xF4 then 0x80 ≤ b2 && b2 ≤ 0x8F
            else isContByte b2) && isContByte b3 && isContByte b4 then
          some (Char.ofNat ((b - 0xF0) * 262144 + (b2 - 0x80) * 4096 +
                            (b3 - 0x80) * 64 + (b4 - 0x80)), rest4)
        else none
      | _ => none
    else none

theorem utf8DecodeStep_shrinks (l : List (Char ⊕ Nat)) (c : Char)
    (r : List (Char ⊕ Nat)) (h : utf8DecodeStep l = some (c, r)) :
    r.length < l.length := by
  rw [utf8DecodeStep.eq_def] at h
  repeat' split at h
  all_goals simp_all
  all_goals omega

def utf8DecodeLoop : Nat → List (Char ⊕ Nat) → Option Str
  | _, [] => some []
  | 0, _ :: _ => none
  | fuel + 1, t :: rest =>
    match utf8DecodeStep (t :: rest) with
    | none => none
    | some (c, rest2) => (utf8DecodeLoop fuel rest2).map (fun d => c :: d)

/-- Strict UTF-8 decoding of the whole token stream; the fuel equals
the stream length and `utf8DecodeStep` always consumes at least one
token, so the zero-fuel branch is unreachable. -/
def utf8DecodeTokens (ts : List (Char ⊕ Nat)) : Option Str := utf8DecodeLoop ts.length ts

/-- Model of JS `decodeURIComponent`; `none` models a thrown
`URIError`. -/
def decodeURIComponent (cs : Str) : Option Str :=
  match percentTokens cs with
  | none => none
  | some ts => utf8DecodeTokens ts

/-- Lenient percent tokenisation used by `URLSearchParams`
(`application/x-www-form-urlencoded` decoding): an ill-formed percent
escape is kept literally instead of throwing. -/
def lenientLoop : Nat → Str → List (Char ⊕ Nat)
  | _, [] => []
  | 0, _ :: _ => []
  | fuel + 1, '%' :: h1 :: h2 :: rest2 =>
    if isHexC h1 && isHexC h2 then
      Sum.inr (hexVal h1 * 16 + hexVal h2) :: lenientLoop fuel rest2
    else Sum.inl '%' :: lenientLoop fuel (h1 :: h2 :: rest2)
  | fuel + 1, '%' :: rest => Sum.inl '%' :: lenientLoop fuel rest
  | fuel + 1, c :: rest => Sum.inl c :: lenientLoop fuel rest

/-- Entry point of the lenient tokeniser; the fuel equals the input
length and every step consumes at least one character, so the
zero-fuel branch is unreachable. -/
def lenientTokens (cs : Str) : List (Char ⊕ Nat) := lenientLoop cs.length cs

/-- Lenient UTF-8 decoding with U+FFFD replacement for invalid bytes,
as used by `URLSearchParams` value decoding. -/
def utf8LenientLoop : Nat → List (Char ⊕ Nat) → Str
  | _, [] => []
  | 0, _ :: _ => []
  | fuel + 1, Sum.inl c :: rest => c :: utf8LenientLoop fuel rest
  | fuel + 1, Sum.inr b :: Sum.inr b2 :: rest2 =>
    if b < 0x80 then Char.ofNat b :: utf8LenientLoop fuel (Sum.inr b2 :: rest2)
    else if (0xC2 ≤ b && b ≤ 0xDF) && isContByte b2 then
      Char.ofNat ((b - 0xC0) * 64 + (b2 - 0x80)) :: utf8LenientLoop fuel rest2
    else Char.ofNat 0xFFFD :: utf8LenientLoop fuel (Sum.inr b2 :: rest2)
  | fuel + 1, Sum.inr b :: rest =>
    if b < 0x80 then Char.ofNat b :: utf8LenientLoop fuel rest
    else Char.ofNat 0xFFFD :: utf8LenientLoop fuel rest

/-- Lenient decoding entry point, fuelled by the stream length. -/
def utf8Lenient (ts : List (Char ⊕ Nat)) : Str := utf8LenientLoop ts.length ts

/-- Model of `application/x-www-form-urlencoded` decoding of one
name or value: `+` becomes a space, then lenient percent decoding. -/
def formDecodeStr (cs : Str) : Str :=
  utf8Lenient (lenientTokens (cs.map (fun c => if c = '+' then ' ' else c)))

/-- Split a string on a single separator character. -/
def splitOnChar (sep : Char) : Str → List Str
  | [] => [[]]
  | c :: rest =>
    if c = sep then [] :: splitOnChar sep rest
    else
      match splitOnChar sep rest with
      | [] => [[c]]
      | s :: ss => (c :: s) :: ss

/-- First occurrence of `sep` in the text: returns the part before it
and the part after it. -/
def findSeqSplit (sep : Str) : Str → Option (Str × Str)
  | [] => if sep = [] then some ([], []) else none
  | c :: rest =>
    if startsWithSeq sep (c :: rest) then some ([], (c :: rest).drop sep.length)
    else
      match findSeqSplit sep rest with
      | some (pre, post) => some (c :: pre, post)
      | none => none

/-- Generic leftmost regex-style scan: at each position where the
literal `pat` occurs, attempt `f` on the text after it; on failure the
scan resumes at the next position, exactly like a backtracking regex
engine searching for its next starting index. -/
def scanFor {α : Type} (pat : Str) (f : Str → Option α) : Str → Option α
  | [] => none
  | c :: rest =>
    match (if startsWithSeq pat (c :: rest) then f ((c :: rest).drop pat.length) else none) with
    | some r => some r
    | none => scanFor pat f rest

/-!
## Data model (src/unnamed/part_000, the types module)

`DeepLinkResult` has fields `webUrl`, `ios`, `android`, `platform`.
The `Platform` union type of the types module is reproduced as the
list of its string literals.
-/

/-- Result record of every handler's `build`, from the types module.
The three handlers under study always return string (non-null) `ios`
and `android`, so those fields are modelled as `Str`. -/
structure DeepLinkResult where
  webUrl : Str
  ios : Str
  android : Str
  platform : Str
deriving DecidableEq, Repr

/-- The literals of the `Platform` union type exactly as declared in
the types module: `'youtube' | 'linkedin' | 'instagram' | 'telegram'
| 'spotify' | 'whatsapp' | 'facebook' | 'reddit' | 'threads'
| 'discord' | 'unknown'`. -/
def declaredPlatforms : List Str :=
  ["youtube".data, "linkedin".data, "instagram".data, "telegram".data,
   "spotify".data, "whatsapp".data, "facebook".data, "reddit".data,
   "threads".data, "discord".data, "unknown".data]

/-!
## Zoom handler (src/packages/core/src/platforms/zoom.ts)

`match` is the regex
`^https?:\/\/(?:[a-z0-9-]+\.)?zoom\.us\/j\/(\d+)(?:\?pwd=([a-zA-Z0-9]+))?`.
-/

/-- Strip the anchored scheme `^https?:\/\/`; `none` when the regex
fails at the anchor. -/
def stripHttpScheme (url : Str) : Option Str :=
  if startsWithSeq "https://".data url then some (url.drop 8)
  else if startsWithSeq "http://".data url then some (url.drop 7)
  else none

/-- Core of the zoom pattern after scheme and optional subdomain:
`zoom\.us\/j\/(\d+)(?:\?pwd=([a-zA-Z0-9]+))?`. -/
def zoomCore (t : Str) : Option (Str × Option Str) :=
  if startsWithSeq "zoom.us/j/".data t then
    if (t.drop 10).takeWhile isDigitC = [] then none
    else
      if startsWithSeq "?pwd=".data ((t.drop 10).dropWhile isDigitC) then
        if (((t.drop 10).dropWhile isDigitC).drop 5).takeWhile isAlnumC = [] then
          some ((t.drop 10).takeWhile isDigitC, none)
        else
          some ((t.drop 10).takeWhile isDigitC,
                some ((((t.drop 10).dropWhile isDigitC).drop 5).takeWhile isAlnumC))
      else some ((t.drop 10).takeWhile isDigitC, none)
  else none

/-- Attempt of the optional one-label subdomain `(?:[a-z0-9-]+\.)?`:
a non-empty run of subdomain characters followed by a dot, then the
core pattern. -/
def zoomSubAttempt (t : Str) : Option (Str × Option Str) :=
  if t.takeWhile isSubChar = [] then none
  else
    match t.dropWhile isSubChar with
    | '.' :: rest => zoomCore rest
    | _ => none

/-- Optional subdomain followed by the core; the greedy attempt with
the subdomain is tried first, exactly as the backtracking engine does,
falling back to the empty option. -/
def zoomAfterScheme (t : Str) : Option (Str × Option Str) :=
  match zoomSubAttempt t with
  | some r => some r
  | none => zoomCore t

/-- Model of `zoomHandler.match`: meeting id and optional password. -/
def zoomMatch (url : Str) : Option (Str × Option Str) :=
  match stripHttpScheme url with
  | none => none
  | some t => zoomAfterScheme t

/-- Parameter string `confno=<id>` with optional `&pwd=<password>`,
as assembled by `zoomHandler.build`. -/
def zoomParams (id : Str) (pwd : Option Str) : Str :=
  "confno=".data ++ id ++
    (match pwd with
     | some p => "&pwd=".data ++ p
     | none => [])

/-- Model of `zoomHandler.build`. -/
def zoomBuild (webUrl : Str) (id : Str) (pwd : Option Str) : DeepLinkResult :=
  { webUrl := webUrl
    ios := "zoomus://zoom.us/join?".data ++ zoomParams id pwd
    android := "intent://zoom.us/join?".data ++ zoomParams id pwd ++
               "#Intent;scheme=zoomus;package=us.zoom.videomeetings;end".data
    platform := "zoom".data }

/-!
## YouTube handler (src/packages/core/src/platforms/youtube.ts)
-/

/-- Tail of the watch pattern after `watch?`:
`(?:.*&)?v=([a-zA-Z0-9_-]{11})(?:&|$)` at a fixed position.  `v=`
followed by exactly eleven id characters followed by `&` or the end of
the string. -/
def vIDAt (t : Str) : Option Str :=
  match t with
  | 'v' :: '=' :: rest =>
    let id := rest.take 11
    if id.length = 11 && id.all isIdChar then
      match rest.drop 11 with
      | [] => some id
      | c :: _ => if c = '&' then some id else none
    else none
  | _ => none

/-- Characters the JS dot `.` does not match (no `s` flag). -/
def isNLChar (c : Char) : Bool :=
  c.toNat = 10 || c.toNat = 13 || c.toNat = 0x2028 || c.toNat = 0x2029

/-- Behaviour of `(?:.*&)?v=ID(?:&|$)` at a fixed position: the greedy
`.*` makes the engine prefer the rightmost `&` (reachable without
crossing a line terminator) that is followed by a valid `v=ID` tail;
failing all of those, the optional group is skipped and `v=ID` must
start immediately. -/
def watchTail (t : Str) : Option Str :=
  let good := (List.range t.length).filter
    (fun k => t.get? k = some '&' && (t.take k).all (fun c => !(isNLChar c)) &&
              (vIDAt (t.drop (k + 1))).isSome)
  match good.getLast? with
  | some k => vIDAt (t.drop (k + 1))
  | none => vIDAt t

/-- Leftmost scan for the watch pattern
`(?:youtube\.com|m\.youtube\.com)\/watch\?...`; on a failed tail the
engine resumes at the next start position. -/
def watchScan : Str → Option Str
  | [] => none
  | c :: rest =>
    match
      (if startsWithSeq "youtube.com/watch?".data (c :: rest) then
        watchTail ((c :: rest).drop 18)
      else if startsWithSeq "m.youtube.com/watch?".data (c :: rest) then
        watchTail ((c :: rest).drop 20)
      else none) with
    | some id => some id
    | none => watchScan rest

/-- Eleven id characters terminated by `?`, `&`, `#` or end of string:
the common tail `([a-zA-Z0-9_-]{11})(?:[?&#]|$)` of the youtu.be,
shorts, embed and live patterns. -/
def idAfter (t : Str) : Option Str :=
  let id := t.take 11
  if id.length = 11 && id.all isIdChar then
    match t.drop 11 with
    | [] => some id
    | c :: _ => if c = '?' || c = '&' || c = '#' then some id else none
  else none

/-- Model of `extractYouTubeVideoId`: the five URL shapes are tried
in source order (watch, youtu.be, shorts, embed, live).  The optional
`(?:www\.)?` prefixes of the path patterns do not change the captured
group and are therefore dropped from the scanned literals. -/
def extractYouTubeVideoId (url : Str) : Option Str :=
  match watchScan url with
  | some id => some id
  | none =>
    match scanFor "youtu.be/".data idAfter url with
    | some id => some id
    | none =>
      match scanFor "youtube.com/shorts/".data idAfter url with
      | some id => some id
      | none =>
        match scanFor "youtube.com/embed/".data idAfter url with
        | some id => some id
        | none => scanFor "youtube.com/live/".data idAfter url

/-- One unit of the timestamp group: `(?:\d+u)?` at a fixed position
for a unit letter `u`.  Returns the consumed text and the remaining
text; an absent unit consumes nothing. -/
def tryUnit (u : Char) (cs : Str) : Str × Str :=
  let run := cs.takeWhile isDigitC
  if run = [] then ([], cs)
  else
    match cs.dropWhile isDigitC with
    | c :: rest2 => if c = u then (run ++ [u], rest2) else ([], cs)
    | [] => ([], cs)

/-- First alternative `(?:\d+h)?(?:\d+m)?(?:\d+s)?` of the `t=` group
at a fixed position; it always succeeds, possibly consuming nothing. -/
def hmsGroup (cs : Str) : Str :=
  let hPart := tryUnit 'h' cs
  let mPart := tryUnit 'm' hPart.2
  let sPart := tryUnit 's' mPart.2
  hPart.1 ++ mPart.1 ++ sPart.1

/-- Leftmost match of `[?&]t=(...)`: the group of the first occurrence
of `?t=` or `&t=`.  The all-optional first alternative always succeeds,
so the group of the first occurrence is returned even when empty (the
`\d+` alternative is never reached by the engine). -/
def findTParam : Str → Option Str
  | [] => none
  | c :: rest =>
    if c = '?' || c = '&' then
      match rest with
      | 't' :: '=' :: rest2 => some (hmsGroup rest2)
      | _ => findTParam rest
    else findTParam rest

/-- Leftmost match of `[?&]start=(\d+)`: scanning resumes past an
occurrence whose digit run is empty. -/
def findStartParam : Str → Option Str
  | [] => none
  | c :: rest =>
    if c = '?' || c = '&' then
      (match rest with
       | 's' :: 't' :: 'a' :: 'r' :: 't' :: '=' :: rest2 =>
         let run := rest2.takeWhile isDigitC
         if run = [] then findStartParam rest else some run
       | _ => findStartParam rest)
    else findStartParam rest

/-- Model of `extractTimestamp`: the `t=` group is used only when
non-empty (JS truthiness of `tMatch[1]`), otherwise the `start=`
parameter is consulted. -/
def extractTimestamp (url : Str) : Option Str :=
  match findTParam url with
  | some g => if g = [] then findStartParam url else some g
  | none => findStartParam url

mutual

/-- Leftmost match of `(\d+)u` for a unit character `u`, as performed
by `trimmed.match(/(\d+)h/)` and its `m`/`s` analogues: scan for a
digit run whose following character is `u`. -/
def scanUnit (u : Char) : Str → Option Nat
  | [] => none
  | c :: cs =>
    if isDigitC c then auxUnit u (c.toNat - 48) cs
    else scanUnit u cs

/-- Inside a digit run with accumulated value `acc`: extend on a digit,
succeed when the unit letter follows, otherwise resume scanning. -/
def auxUnit (u : Char) (acc : Nat) : Str → Option Nat
  | [] => none
  | c :: cs =>
    if isDigitC c then auxUnit u (acc * 10 + (c.toNat - 48)) cs
    else if c = u then some acc
    else scanUnit u cs

end

/-- Model of `parseTimestampToSeconds`.  Empty or whitespace-only
input yields 0; an all-digit string parses directly; otherwise the
first `(\d+)h`, `(\d+)m`, `(\d+)s` matches are combined, with 0 when
all three are absent.  The NaN and negativity guards of the source can
never fire on the regex-constrained inputs and vanish in the `Nat`
model. -/
def parseTimestampToSeconds (timestamp : Str) : Nat :=
  let trimmed := jsTrim timestamp
  if trimmed = [] then 0
  else if trimmed.all isDigitC then digitsVal trimmed
  else
    match scanUnit 'h' trimmed, scanUnit 'm' trimmed, scanUnit 's' trimmed with
    | none, none, none => 0
    | h, m, s => h.getD 0 * 3600 + m.getD 0 * 60 + s.getD 0

/-- Model of `youtubeHandler.match`: the synthetic match array
`[url, videoId]` is modelled by the captured id. -/
def youtubeMatch (url : Str) : Option Str := extractYouTubeVideoId url

/-- Timestamp parameter appended by `youtubeHandler.build` to both
deep links: `&t=<seconds>s` when a strictly positive number of seconds
was derived, nothing otherwise (a zero or unparseable timestamp is
omitted entirely). -/
def ytTimestampParam (webUrl : Str) : Str :=
  match extractTimestamp webUrl with
  | none => []
  | some t =>
    let seconds := parseTimestampToSeconds t
    if seconds > 0 then "&t=".data ++ natStr seconds ++ "s".data else []

/-- Model of `youtubeHandler.build` (the match argument is the
captured video id). -/
def youtubeBuild (webUrl : Str) (videoId : Str) : DeepLinkResult :=
  { webUrl := webUrl
    ios := "vnd.youtube://watch?v=".data ++ videoId ++ ytTimestampParam webUrl
    android := "intent://watch?v=".data ++ videoId ++ ytTimestampParam webUrl ++
               "#Intent;scheme=vnd.youtube;package=com.google.android.youtube;end".data
    platform := "youtube".data }

/-!
## WHATWG URL model

`parseGoogleMapsUrl` consults `new URL(url)` only through
`searchParams.get('query')` and through its throwing behaviour on
invalid input.  The model below covers scheme parsing, the special
http/https authority rules (non-empty host without forbidden
characters, digit-only port up to 65535) and extraction of the query
component; IDNA host mapping and other exotica are simplified, which
is documented here and does not affect any claim: every theorem below
either treats the extracted query abstractly or uses inputs on which
the model agrees with the builtin. -/

/-- Scheme characters after the first letter: `[a-zA-Z0-9+.-]`. -/
def isSchemeChar (c : Char) : Bool :=
  isAsciiAlphaC c || isDigitC c || c = '+' || c = '-' || c = '.'

/-- Split a leading URL scheme: lower-cased scheme and the text after
the colon, or `none` when no scheme is present (the constructor
throws). -/
def splitScheme : Str → Option (Str × Str)
  | [] => none
  | c :: rest =>
    if isAsciiAlphaC c then
      match (rest.dropWhile isSchemeChar) with
      | ':' :: tail => some (lowerStr (c :: rest.takeWhile isSchemeChar), tail)
      | _ => none
    else none

/-- Characters that make a host invalid (WHATWG forbidden host code
points, plus `%`, whose full validation is simplified away). -/
def isForbiddenHostC (c : Char) : Bool :=
  c = ' ' || c = '#' || c = '/' || c = '?' || c = '@' || c = ':' ||
  c = '[' || c = ']' || c = '\\' || c = '<' || c = '>' || c = '^' ||
  c = '|' || c = '%' || c.toNat = 0 || c.toNat = 9 || c.toNat = 10 || c.toNat = 13

/-- Authority delimiter for special schemes. -/
def isAuthEnd (c : Char) : Bool := c = '/' || c = '\\' || c = '?' || c = '#'

/-- Validate the authority of a special-scheme URL: userinfo before the
last `@` is dropped, a digit-only port of at most 65535 may follow the
first `:` of the remainder, and the host itself must be non-empty and
free of forbidden characters. -/
def validAuthority (auth : Str) : Bool :=
  let hostPort :=
    if auth.contains '@' then (auth.reverse.takeWhile (fun c => c ≠ '@')).reverse
    else auth
  let host := hostPort.takeWhile (fun c => c ≠ ':')
  let portPart := hostPort.dropWhile (fun c => c ≠ ':')
  let portOk :=
    match portPart with
    | [] => true
    | _ :: p => p.all isDigitC && (p = [] || digitsVal p ≤ 65535)
  host ≠ [] && host.all (fun c => !(isForbiddenHostC c)) && portOk

/-- Query component of the text after the authority (or after the
scheme for non-special URLs): the text between the first `?` and the
fragment, or empty when there is no `?`. -/
def queryOf (t : Str) : Str :=
  let beforeFrag := t.takeWhile (fun c => c ≠ '#')
  match beforeFrag.dropWhile (fun c => c ≠ '?') with
  | '?' :: q => q
  | _ => []

/-- Model of `new URL(url)` restricted to what the handler consults:
`none` when the constructor throws, otherwise the query component
(without the leading `?`). -/
def jsURLQueryStr (url : Str) : Option Str :=
  match splitScheme url with
  | none => none
  | some (sch, rest) =>
    if sch = "http".data || sch = "https".data then
      let afterSlashes := rest.dropWhile (fun c => c = '/' || c = '\\')
      let auth := afterSlashes.takeWhile (fun c => !(isAuthEnd c))
      let afterAuth := afterSlashes.dropWhile (fun c => !(isAuthEnd c))
      if validAuthority auth then some (queryOf afterAuth) else none
    else some (queryOf rest)

/-- Model of `url.searchParams.get(name)`: split the query on `&`,
skip empty segments, split each segment at its first `=`, decode both
sides as form-urlencoded text, and return the first value whose name
matches. -/
def jsSearchParamGet (qstr : Str) (name : Str) : Option Str :=
  ((splitOnChar '&' qstr).filterMap
    (fun seg =>
      if seg = [] then none
      else
        let n := seg.takeWhile (fun c => c ≠ '=')
        let v := match seg.dropWhile (fun c => c ≠ '=') with
                 | '=' :: r => r
                 | _ => []
        if formDecodeStr n = name then some (formDecodeStr v) else none)).head?

/-!
## Google Maps handler (src/packages/core/src/platforms/googlemaps.ts)
-/

/-- Model of `isShortUrl`:
`^https?:\/\/(?:maps\.app\.goo\.gl|goo\.gl\/maps)`. -/
def isShortUrl (url : Str) : Bool :=
  startsWithSeq "https://maps.app.goo.gl".data url ||
  startsWithSeq "http://maps.app.goo.gl".data url ||
  startsWithSeq "https://goo.gl/maps".data url ||
  startsWithSeq "http://goo.gl/maps".data url

/-- Clamp of the converted zoom level: `Math.max(1, Math.min(20, z))`. -/
def clampZoom (z : Int) : Int := max 1 (min 20 z)

/-- Model of `convertZoom`.  Unit `z` passes the value through; unit
`m` converts meters to a zoom level.  The floating-point expression
`Math.round(18 - Math.log2(parseFloat(value) / 500))` is abstracted as
the integer-valued oracle `rl` applied to the captured meters text (for
every positive finite meters value the rounded result is an integral
double, i.e. an integer); the source then clamps it to [1, 20] and
stringifies. -/
def convertZoom (rl : Str → Int) (value : Str) (unit : Char) : Str :=
  if unit = 'z' then value else intStr (clampZoom (rl value))

/-- Signed decimal of the maps patterns: `(-?\d+\.\d+)` at a fixed
position, returning the captured text and the remainder. -/
def parseSignedDec (t : Str) : Option (Str × Str) :=
  let sgnRest : Str × Str :=
    match t with
    | '-' :: r => (['-'], r)
    | _ => ([], t)
  let ip := sgnRest.2.takeWhile isDigitC
  if ip = [] then none
  else
    match sgnRest.2.dropWhile isDigitC with
    | '.' :: t2 =>
      let fp := t2.takeWhile isDigitC
      if fp = [] then none
      else some (sgnRest.1 ++ ip ++ '.' :: fp, t2.drop fp.length)
    | _ => none

/-- Zoom number `(\d+(?:\.\d+)?)` at a fixed position: when the
optional fraction is absent or ill-formed the integer part alone is
captured and the remainder starts at the character after it, exactly
as the backtracking engine behaves. -/
def parseZoomNum (t : Str) : Option (Str × Str) :=
  let ip := t.takeWhile isDigitC
  if ip = [] then none
  else
    match t.dropWhile isDigitC with
    | '.' :: t2 =>
      let fp := t2.takeWhile isDigitC
      if fp = [] then some (ip, '.' :: t2)
      else some (ip ++ '.' :: fp, t2.drop fp.length)
    | rest => some (ip, rest)

/-- Search-path group `([^\/?#]+)` after the literal
`/maps/search/`. -/
def searchGroupAt (t : Str) : Option Str :=
  let run := t.takeWhile (fun c => !(c = '/' || c = '?' || c = '#'))
  if run = [] then none else some run

/-- Directions groups `([^\/]+)\/([^\/?#]+)` after the literal
`/maps/dir/`. -/
def dirGroupsAt (t : Str) : Option (Str × Str) :=
  let g1 := t.takeWhile (fun c => c ≠ '/')
  if g1 = [] then none
  else
    match t.dropWhile (fun c => c ≠ '/') with
    | '/' :: t2 =>
      let g2 := t2.takeWhile (fun c => !(c = '/' || c = '?' || c = '#'))
      if g2 = [] then none else some (g1, g2)
    | _ => none

/-- Coordinate triple `(-?\d+\.\d+),(-?\d+\.\d+),(\d+(?:\.\d+)?)([mz])`
at a fixed position. -/
def coordTripleAt (t : Str) : Option (Str × Str × Str × Char) :=
  match parseSignedDec t with
  | none => none
  | some (lat, r1) =>
    match r1 with
    | ',' :: r2 =>
      match parseSignedDec r2 with
      | none => none
      | some (lng, r3) =>
        match r3 with
        | ',' :: r4 =>
          match parseZoomNum r4 with
          | none => none
          | some (zv, r5) =>
            match r5 with
            | u :: _ => if u = 'm' || u = 'z' then some (lat, lng, zv, u) else none
            | [] => none
        | _ => none
    | _ => none

/-- Place groups `([^\/@]+)\/@` followed by the coordinate triple,
after the literal `/maps/place/`. -/
def placeGroupsAt (t : Str) : Option (Str × Str × Str × Str × Char) :=
  let g1 := t.takeWhile (fun c => !(c = '/' || c = '@'))
  if g1 = [] then none
  else
    match t.drop g1.length with
    | '/' :: '@' :: t2 =>
      (coordTripleAt t2).map (fun r => (g1, r.1, r.2.1, r.2.2.1, r.2.2.2))
    | _ => none

/-- Parse result of `parseGoogleMapsUrl`, one constructor per `type`
tag of the source. -/
inductive GParse where
  | shorturl
  | search (query : Str)
  | directions (query : Str)
  | place (query lat lng zoom : Str)
  | coords (lat lng zoom : Str)
  | unknown
deriving DecidableEq, Repr

/-- Body of the `try` block of `parseGoogleMapsUrl`: `Except.error`
models a thrown exception (URL constructor failure or a `URIError`
from `decodeURIComponent`), which aborts the remaining shape tests. -/
def parseGoogleMapsUrlInner (rl : Str → Int) (url : Str) : Except Unit GParse :=
  match jsURLQueryStr url with
  | none => .error ()
  | some qstr =>
    if (jsSearchParamGet qstr "query".data).getD [] ≠ [] then
      .ok (.search ((jsSearchParamGet qstr "query".data).getD []))
    else
      match scanFor "/maps/search/".data searchGroupAt url with
      | some g =>
        match decodeURIComponent g with
        | none => .error ()
        | some d => .ok (.search d)
      | none =>
        match scanFor "/maps/dir/".data dirGroupsAt url with
        | some (g1, g2) =>
          match decodeURIComponent g1 with
          | none => .error ()
          | some s =>
            match decodeURIComponent g2 with
            | none => .error ()
            | some e => .ok (.directions (s ++ " to ".data ++ e))
        | none =>
          match scanFor "/maps/place/".data placeGroupsAt url with
          | some (g1, lat, lng, zv, zu) =>
            match decodeURIComponent g1 with
            | none => .error ()
            | some d => .ok (.place d lat lng (convertZoom rl zv zu))
          | none =>
            match scanFor "/maps/@".data coordTripleAt url with
            | some (lat, lng, zv, zu) => .ok (.coords lat lng (convertZoom rl zv zu))
            | none => .ok .unknown

/-- Model of `parseGoogleMapsUrl`: short URLs are classified before the
`try` block; a caught exception yields the `unknown` shape. -/
def parseGoogleMapsUrl (rl : Str → Int) (url : Str) : GParse :=
  if isShortUrl url then .shorturl
  else
    match parseGoogleMapsUrlInner rl url with
    | .ok r => r
    | .error _ => .unknown

/-- Model of `googlemapsHandler.match`: four anchored host patterns
(`www.` optional on the first). -/
def googlemapsMatch (url : Str) : Bool :=
  startsWithSeq "https://www.google.com/maps".data url ||
  startsWithSeq "http://www.google.com/maps".data url ||
  startsWithSeq "https://google.com/maps".data url ||
  startsWithSeq "http://google.com/maps".data url ||
  startsWithSeq "https://maps.google.com".data url ||
  startsWithSeq "http://maps.google.com".data url ||
  startsWithSeq "https://maps.app.goo.gl".data url ||
  startsWithSeq "http://maps.app.goo.gl".data url ||
  startsWithSeq "https://goo.gl/maps".data url ||
  startsWithSeq "http://goo.gl/maps".data url

/-- Strip an anchored `^https?:\/\/` prefix, as done by
`webUrl.replace(/^https?:\/\//, '')` in the shorturl branch. -/
def dropScheme (url : Str) : Str :=
  if startsWithSeq "https://".data url then url.drop 8
  else if startsWithSeq "http://".data url then url.drop 7
  else url

/-- Canonical search-by-query web URL,
`https://www.google.com/maps/search/?api=1&query=<enc>`. -/
def canonicalSearch (q : Str) : Str :=
  "https://www.google.com/maps/search/?api=1&query=".data ++ encodeURIComponent q

/-- Final record assembly shared by all non-shorturl branches: the
normalized `webUrl` is the canonical search form when the derived
query is non-empty (JS truthiness) and the input URL otherwise. -/
def gmFinish (webUrl query ios android : Str) : DeepLinkResult :=
  { webUrl := if query = [] then webUrl else canonicalSearch query
    ios := ios
    android := android
    platform := "googlemaps".data }

/-- Android intent URI of the search branch. -/
def gmSearchAndroid (q : Str) : Str :=
  "intent://0,0?q=".data ++ encodeURIComponent q ++
  "#Intent;scheme=geo;package=com.google.android.apps.maps;action=android.intent.action.VIEW;category=android.intent.category.BROWSABLE;S.browser_fallback_url=".data ++
  encodeURIComponent (canonicalSearch q) ++ ";end".data

/-- First two `' to '`-separated parts of the directions query, the
only parts `build` consults (`dirParts[0]`, `dirParts[1]`). -/
def dirFirstTwo (q : Str) : Str × Option Str :=
  match findSeqSplit " to ".data q with
  | none => (q, none)
  | some (pre, post) =>
    match findSeqSplit " to ".data post with
    | none => (pre, some post)
    | some (pre2, _) => (pre, some pre2)

/-- Android intent URI of the directions branch, including the
`dirParts` fallback logic (`dirParts[1] || dirParts[0] || ''`). -/
def gmDirAndroid (q : Str) : Str :=
  let parts := dirFirstTwo q
  let dirStart := parts.1
  let dirEnd :=
    match parts.2 with
    | some e => if e = [] then parts.1 else e
    | none => parts.1
  let directionsUrl := "https://www.google.com/maps/dir/".data ++
    encodeURIComponent dirStart ++ "/".data ++ encodeURIComponent dirEnd
  "intent://0,0?q=".data ++ encodeURIComponent q ++
  "#Intent;scheme=geo;package=com.google.android.apps.maps;action=android.intent.action.VIEW;category=android.intent.category.BROWSABLE;S.browser_fallback_url=".data ++
  encodeURIComponent directionsUrl ++ ";end".data

/-- Android intent URI of the place branch. -/
def gmPlaceAndroid (query lat lng zoom : Str) : Str :=
  let placeUrl := "https://www.google.com/maps/place/".data ++
    encodeURIComponent query ++ "/@".data ++ lat ++ ",".data ++ lng ++ ",".data ++
    zoom ++ "z".data
  "intent://".data ++ lat ++ ",".data ++ lng ++ "?q=".data ++ encodeURIComponent query ++
  "#Intent;scheme=geo;package=com.google.android.apps.maps;action=android.intent.action.VIEW;category=android.intent.category.BROWSABLE;S.browser_fallback_url=".data ++
  encodeURIComponent placeUrl ++ ";end".data

/-- Android intent URI of the coords branch. -/
def gmCoordsAndroid (lat lng zoom : Str) : Str :=
  let coordsUrl := "https://www.google.com/maps/@".data ++ lat ++ ",".data ++ lng ++
    ",".data ++ zoom ++ "z".data
  "intent://".data ++ lat ++ ",".data ++ lng ++ "?z=".data ++ zoom ++
  "#Intent;scheme=geo;package=com.google.android.apps.maps;action=android.intent.action.VIEW;category=android.intent.category.BROWSABLE;S.browser_fallback_url=".data ++
  encodeURIComponent coordsUrl ++ ";end".data

/-- Android intent URI of the default (unknown) branch. -/
def gmDefaultAndroid : Str :=
  "intent://0,0#Intent;scheme=geo;package=com.google.android.apps.maps;action=android.intent.action.VIEW;category=android.intent.category.BROWSABLE;S.browser_fallback_url=".data ++
  encodeURIComponent "https://www.google.com/maps".data ++ ";end".data

/-- Model of `googlemapsHandler.build`. -/
def googlemapsBuild (rl : Str → Int) (webUrl : Str) : DeepLinkResult :=
  match parseGoogleMapsUrl rl webUrl with
  | .shorturl =>
    { webUrl := webUrl
      ios := "https://".data ++ dropScheme webUrl
      android := "https://".data ++ dropScheme webUrl
      platform := "googlemaps".data }
  | .search q =>
    gmFinish webUrl q ("comgooglemaps://?q=".data ++ encodeURIComponent q) (gmSearchAndroid q)
  | .directions q =>
    gmFinish webUrl q ("comgooglemaps://?daddr=".data ++ encodeURIComponent q) (gmDirAndroid q)
  | .place q lat lng zoom =>
    let query := if q = [] then lat ++ ",".data ++ lng else q
    gmFinish webUrl query ("comgooglemaps://?q=".data ++ encodeURIComponent query)
      (gmPlaceAndroid query lat lng zoom)
  | .coords lat lng zoom =>
    gmFinish webUrl (lat ++ ",".data ++ lng)
      ("comgooglemaps://?center=".data ++ lat ++ ",".data ++ lng ++ "&zoom=".data ++ zoom)
      (gmCoordsAndroid lat lng zoom)
  | .unknown =>
    gmFinish webUrl [] "comgooglemaps://".data gmDefaultAndroid

/-!
## Spec-side URI grammars (written from the specification text, §6)
-/

/-- Intent-URI grammar demanded by the specification:
`intent://<authority-and-query>#Intent;scheme=<scheme>;package=<package-id>;action=android.intent.action.VIEW;category=android.intent.category.BROWSABLE;S.browser_fallback_url=<percent-encoded-fallback-url>;end`. -/
def IntentGrammarFull (s : Str) : Prop :=
  ∃ aq sch pkg fb : Str,
    s = "intent://".data ++ aq ++ "#Intent;scheme=".data ++ sch ++ ";package=".data ++ pkg ++
        ";action=android.intent.action.VIEW;category=android.intent.category.BROWSABLE;S.browser_fallback_url=".data ++
        encodeURIComponent fb ++ ";end".data

/-- Reduced intent-URI form actually emitted by the zoom and youtube
handlers: scheme and package segments but no action, category or
browser fallback. -/
def ReducedIntent (s : Str) : Prop :=
  ∃ aq sch pkg : Str,
    s = "intent://".data ++ aq ++ "#Intent;scheme=".data ++ sch ++ ";package=".data ++ pkg ++
        ";end".data

/-!
## Generic string lemmas
-/

theorem startsWithSeq_self_append (p t : Str) : startsWithSeq p (p ++ t) = true := by
  induction p with
  | nil => rfl
  | cons c cs ih => simp [startsWithSeq, ih]

theorem containsSeq_nil (pat : Str) : containsSeq pat [] = startsWithSeq pat [] := by
  rw [containsSeq.eq_def]
  simp

theorem containsSeq_cons (pat : Str) (c : Char) (rest : Str) :
    containsSeq pat (c :: rest) =
      (startsWithSeq pat (c :: rest) || containsSeq pat rest) := by
  rw [containsSeq.eq_def]

theorem containsSeq_of_parts (pre pat post : Str) :
    containsSeq pat (pre ++ (pat ++ post)) = true := by
  induction pre with
  | nil =>
    cases hp : pat ++ post with
    | nil => simp [containsSeq_nil, hp ▸ startsWithSeq_self_append pat post]
    | cons c rest =>
      rw [List.nil_append, containsSeq_cons, ← hp, startsWithSeq_self_append, Bool.true_or]
  | cons c cs ih =>
    rw [List.cons_append, containsSeq_cons, ih, Bool.or_true]

theorem containsSeq_iff_drop (pat l : Str) :
    containsSeq pat l = true ↔ ∃ k, startsWithSeq pat (l.drop k) = true := by
  induction l with
  | nil =>
    rw [containsSeq_nil]
    constructor
    · intro h
      exact ⟨0, h⟩
    · rintro ⟨k, hk⟩
      simpa [List.drop_nil] using hk
  | cons c rest ih =>
    rw [containsSeq_cons, Bool.or_eq_true_iff]
    constructor
    · rintro (h | h)
      · exact ⟨0, h⟩
      · obtain ⟨k, hk⟩ := ih.1 h
        exact ⟨k + 1, hk⟩
    · rintro ⟨k, hk⟩
      cases k with
      | zero => exact Or.inl hk
      | succ k => exact Or.inr (ih.2 ⟨k, hk⟩)

theorem startsWithSeq_head_mem {p : Char} {ps l : Str}
    (h : startsWithSeq (p :: ps) l = true) : p ∈ l := by
  cases l with
  | nil => simp [startsWithSeq] at h
  | cons c cs =>
    rw [startsWithSeq, Bool.and_eq_true] at h
    have : p = c := by simpa using h.1
    simp [this]

theorem containsSeq_false_of_head_notin {p : Char} {ps l : Str}
    (h : p ∉ l) : containsSeq (p :: ps) l = false := by
  induction l with
  | nil => rw [containsSeq_nil]; rfl
  | cons c rest ih =>
    rw [containsSeq_cons]
    have h1 : startsWithSeq (p :: ps) (c :: rest) = false := by
      by_contra hb
      exact h (startsWithSeq_head_mem (Bool.of_not_eq_false hb))
    have h2 : containsSeq (p :: ps) rest = false :=
      ih (fun hm => h (List.mem_cons_of_mem c hm))
    rw [h1, h2, Bool.or_self]

theorem containsSeq_append_false {p : Char} {ps : Str} (X B : Str)
    (hX : p ∉ X) (hB : containsSeq (p :: ps) B = false) :
    containsSeq (p :: ps) (X ++ B) = false := by
  by_contra hb
  obtain ⟨k, hk⟩ := (containsSeq_iff_drop (p :: ps) (X ++ B)).1 (Bool.of_not_eq_false hb)
  rw [List.drop_append_eq_append_drop] at hk
  rcases Nat.lt_or_ge k X.length with hlt | hge
  · have hz : k - X.length = 0 := Nat.sub_eq_zero_of_le (Nat.le_of_lt hlt)
    rw [hz, List.drop_zero] at hk
    have hne : X.drop k ≠ [] := by
      intro hnil
      have := List.length_drop k X
      rw [hnil] at this
      simp at this
      omega
    obtain ⟨c, cs, hcc⟩ := List.exists_cons_of_ne_nil hne
    rw [hcc, List.cons_append] at hk
    simp only [startsWithSeq, Bool.and_eq_true, decide_eq_true_eq] at hk
    have hpc : p = c := hk.1
    have : c ∈ X := List.drop_subset k X (hcc ▸ List.mem_cons_self c cs)
    exact hX (hpc ▸ this)
  · have hx : X.drop k = [] := List.drop_eq_nil_of_le hge
    rw [hx, List.nil_append] at hk
    have : containsSeq (p :: ps) B = true :=
      (containsSeq_iff_drop (p :: ps) B).2 ⟨k - X.length, hk⟩
    rw [hB] at this
    exact Bool.false_ne_true this

theorem dropWhile_eq_self_of_head (p : Char → Bool) (l : Str)
    (h : ∀ c, l.head? = some c → p c = false) : l.dropWhile p = l := by
  cases l with
  | nil => rfl
  | cons c cs =>
    have : p c = false := h c rfl
    simp [List.dropWhile_cons, this]

theorem jsTrim_noop (t : Str) (h : ∀ c ∈ t, isJsWs c = false) : jsTrim t = t := by
  unfold jsTrim
  have h1 : t.dropWhile isJsWs = t := by
    apply dropWhile_eq_self_of_head
    intro c hc
    cases t with
    | nil => simp at hc
    | cons a as =>
      have hca : a = c := by simpa using hc
      exact hca ▸ h a (List.mem_cons_self a as)
  rw [h1]
  have h2 : t.reverse.dropWhile isJsWs = t.reverse := by
    apply dropWhile_eq_self_of_head
    intro c hc
    cases hr : t.reverse with
    | nil => rw [hr] at hc; simp at hc
    | cons a as =>
      rw [hr] at hc
      have hca : a = c := by simpa using hc
      have : a ∈ t.reverse := by rw [hr]; exact List.mem_cons_self a as
      exact hca ▸ h a (List.mem_reverse.1 this)
  rw [h2, List.reverse_reverse]

theorem takeWhile_append_all (p : Char → Bool) (xs ys : Str)
    (hxs : xs.all p = true) (hys : ∀ c, ys.head? = some c → p c = false) :
    (xs ++ ys).takeWhile p = xs ∧ (xs ++ ys).dropWhile p = ys := by
  induction xs with
  | nil =>
    constructor
    · cases ys with
      | nil => rfl
      | cons c cs => simp [List.takeWhile_cons, hys c rfl]
    · cases ys with
      | nil => rfl
      | cons c cs => simp [List.dropWhile_cons, hys c rfl]
  | cons x xs' ih =>
    rw [List.all_cons, Bool.and_eq_true] at hxs
    obtain ⟨h1, h2⟩ := ih hxs.2
    constructor
    · rw [List.cons_append, List.takeWhile_cons_of_pos hxs.1, h1]
    · rw [List.cons_append, List.dropWhile_cons_of_pos hxs.1, h2]

/-!
## Claim theorems
-/

/-- C6: `convertZoom("15", "z") == "15"` (and unit `z` passes any
value through unchanged); for unit `m` the result is the decimal
string of `round(18 - log2(meters / 500))` (the abstracted rounded
value `rl v`) clamped to the integer range [1, 20], and that clamped
integer always lies in [1, 20]. -/
theorem c6_convertZoom_clamped :
    (∀ rl : Str → Int, convertZoom rl "15".data 'z' = "15".data) ∧
    (∀ (rl : Str → Int) (v : Str), convertZoom rl v 'z' = v) ∧
    (∀ (rl : Str → Int) (v : Str),
      convertZoom rl v 'm' = intStr (clampZoom (rl v)) ∧
      1 ≤ clampZoom (rl v) ∧ clampZoom (rl v) ≤ 20) := by
  refine ⟨fun rl => rfl, fun rl v => rfl, fun rl v => ⟨rfl, ?_, ?_⟩⟩
  · exact le_max_left 1 (min 20 (rl v))
  · exact max_le (by norm_num) (min_le_left 20 (rl v))

/-- C5: the `platform` tag of every build result is a fixed non-null
string literal, but the zoom and googlemaps handlers return the tags
`"zoom"` and `"googlemaps"`, which are absent from the `Platform`
union declared in the types module (only `"youtube"` of the three is
declared); evaluated here at concrete matching inputs. -/
theorem c5_platform_tag_evaluation :
    zoomMatch "https://zoom.us/j/1".data = some ("1".data, none) ∧
    (zoomBuild "https://zoom.us/j/1".data "1".data none).platform = "zoom".data ∧
    "zoom".data ∉ declaredPlatforms ∧
    googlemapsMatch "https://www.google.com/maps/foo".data = true ∧
    (googlemapsBuild (fun _ => (0 : Int)) "https://www.google.com/maps/foo".data).platform =
      "googlemaps".data ∧
    "googlemaps".data ∉ declaredPlatforms ∧
    youtubeMatch "https://youtu.be/dQw4w9WgXcQ".data = some "dQw4w9WgXcQ".data ∧
    (youtubeBuild "https://youtu.be/dQw4w9WgXcQ".data "dQw4w9WgXcQ".data).platform =
      "youtube".data ∧
    "youtube".data ∈ declaredPlatforms := by
  decide

/-- C1: the youtube handler recognises
`https://youtu.be/dQw4w9WgXcQ?t=83` with platform `youtube`, but the
bare-integer timestamp `t=83` is dropped: the all-optional first
alternative of the `t=` group matches the empty string, so the built
iOS URI is `vnd.youtube://watch?v=dQw4w9WgXcQ` without the claimed
`&t=83s` suffix (which does appear for the suffixed form `t=83s`). -/
theorem c1_bare_timestamp_dropped :
    youtubeMatch "https://youtu.be/dQw4w9WgXcQ?t=83".data = some "dQw4w9WgXcQ".data ∧
    extractTimestamp "https://youtu.be/dQw4w9WgXcQ?t=83".data = none ∧
    (youtubeBuild "https://youtu.be/dQw4w9WgXcQ?t=83".data "dQw4w9WgXcQ".data).platform =
      "youtube".data ∧
    (youtubeBuild "https://youtu.be/dQw4w9WgXcQ?t=83".data "dQw4w9WgXcQ".data).ios =
      "vnd.youtube://watch?v=dQw4w9WgXcQ".data ∧
    (youtubeBuild "https://youtu.be/dQw4w9WgXcQ?t=83".data "dQw4w9WgXcQ".data).ios ≠
      "vnd.youtube://watch?v=dQw4w9WgXcQ&t=83s".data ∧
    (youtubeBuild "https://youtu.be/dQw4w9WgXcQ?t=83s".data "dQw4w9WgXcQ".data).ios =
      "vnd.youtube://watch?v=dQw4w9WgXcQ&t=83s".data := by
  decide

/-!
## Invariants of the maps parser
-/

theorem scanFor_some {α : Type} (pat : Str) (f : Str → Option α) (l : Str) (r : α)
    (h : scanFor pat f l = some r) : ∃ t, f t = some r := by
  induction l with
  | nil => exact absurd h (by simp [scanFor])
  | cons c rest ih =>
    rw [scanFor] at h
    split at h
    · rename_i r' heq
      cases h
      by_cases hs : startsWithSeq pat (c :: rest) = true
      · rw [if_pos hs] at heq
        exact ⟨_, heq⟩
      · rw [if_neg hs] at heq
        exact absurd heq (by simp)
    · exact ih h

theorem percentTokens_ne_nil (cs : Str) (ts : List (Char ⊕ Nat))
    (h : percentTokens cs = some ts) (hne : cs ≠ []) : ts ≠ [] := by
  rw [percentTokens.eq_def] at h
  repeat' split at h
  all_goals
    first
      | exact absurd rfl hne
      | exact Option.noConfusion h
      | (obtain ⟨ts2, hts2, rfl⟩ := Option.map_eq_some'.1 h; simp)

theorem utf8DecodeLoop_ne_nil (fuel : Nat) (ts : List (Char ⊕ Nat)) (d : Str)
    (h : utf8DecodeLoop fuel ts = some d) (hne : ts ≠ []) : d ≠ [] := by
  match fuel, ts with
  | _, [] => exact absurd rfl hne
  | 0, t :: rest => exact Option.noConfusion h
  | fuel + 1, t :: rest =>
    rw [utf8DecodeLoop] at h
    split at h
    · exact Option.noConfusion h
    · obtain ⟨d2, hd2, rfl⟩ := Option.map_eq_some'.1 h
      simp

theorem utf8DecodeTokens_ne_nil (ts : List (Char ⊕ Nat)) (d : Str)
    (h : utf8DecodeTokens ts = some d) (hne : ts ≠ []) : d ≠ [] :=
  utf8DecodeLoop_ne_nil ts.length ts d h hne

theorem decodeURIComponent_ne_nil (cs d : Str)
    (h : decodeURIComponent cs = some d) (hne : cs ≠ []) : d ≠ [] := by
  rw [decodeURIComponent] at h
  split at h
  · exact Option.noConfusion h
  · rename_i ts hts
    exact utf8DecodeTokens_ne_nil ts d h (percentTokens_ne_nil cs ts hts hne)

theorem searchGroupAt_ne_nil (t g : Str) (h : searchGroupAt t = some g) : g ≠ [] := by
  rw [searchGroupAt] at h
  split at h
  · exact Option.noConfusion h
  · rename_i hrun
    cases h
    exact hrun

theorem inner_search_ne_nil (rl : Str → Int) (url q : Str)
    (h : parseGoogleMapsUrlInner rl url = .ok (.search q)) : q ≠ [] := by
  rw [parseGoogleMapsUrlInner.eq_def] at h
  repeat' split at h
  all_goals try exact Except.noConfusion h
  all_goals injection h with h2
  all_goals try exact GParse.noConfusion h2
  all_goals injection h2 with h3
  all_goals subst h3
  all_goals
    first
      | assumption
      | (rename decodeURIComponent _ = some _ => hdec
         rename scanFor _ _ _ = some _ => hscan
         obtain ⟨t2, ht2⟩ := scanFor_some _ _ _ _ hscan
         exact decodeURIComponent_ne_nil _ _ hdec (searchGroupAt_ne_nil t2 _ ht2))

theorem inner_directions_shape (rl : Str → Int) (url q : Str)
    (h : parseGoogleMapsUrlInner rl url = .ok (.directions q)) :
    ∃ s e : Str, q = s ++ " to ".data ++ e := by
  rw [parseGoogleMapsUrlInner.eq_def] at h
  repeat' split at h
  all_goals try exact Except.noConfusion h
  all_goals injection h with h2
  all_goals try exact GParse.noConfusion h2
  all_goals injection h2 with h3
  all_goals subst h3
  exact ⟨_, _, rfl⟩

theorem parse_search_ne_nil (rl : Str → Int) (url q : Str)
    (h : parseGoogleMapsUrl rl url = .search q) : q ≠ [] := by
  rw [parseGoogleMapsUrl] at h
  split at h
  · exact GParse.noConfusion h
  · split at h
    · rename_i r hr
      subst h
      exact inner_search_ne_nil rl url q hr
    · exact GParse.noConfusion h

theorem parse_directions_ne_nil (rl : Str → Int) (url q : Str)
    (h : parseGoogleMapsUrl rl url = .directions q) : q ≠ [] := by
  rw [parseGoogleMapsUrl] at h
  split at h
  · exact GParse.noConfusion h
  · split at h
    · rename_i r hr
      subst h
      obtain ⟨s, e, hq⟩ := inner_directions_shape rl url q hr
      subst hq
      simp
    · exact GParse.noConfusion h

/-- C2 counterexample: for the pure-coordinates URL
`https://www.google.com/maps/@48.8584,2.2945,17z` the build result's
`webUrl` is NOT the input unchanged: the coords branch derives the
query `48.8584,2.2945`, so `webUrl` is normalized to the canonical
search form. -/
theorem c2_coords_webUrl_changed :
    parseGoogleMapsUrl (fun _ => (0 : Int))
        "https://www.google.com/maps/@48.8584,2.2945,17z".data =
      GParse.coords "48.8584".data "2.2945".data "17".data ∧
    (googlemapsBuild (fun _ => (0 : Int))
        "https://www.google.com/maps/@48.8584,2.2945,17z".data).webUrl =
      "https://www.google.com/maps/search/?api=1&query=48.8584%2C2.2945".data ∧
    (googlemapsBuild (fun _ => (0 : Int))
        "https://www.google.com/maps/@48.8584,2.2945,17z".data).webUrl ≠
      "https://www.google.com/maps/@48.8584,2.2945,17z".data := by
  decide

/-- C2 (amended): whenever the parsed shape derives a query (search,
directions, place — and also coords, whose query is `<lat>,<lng>`),
the built `webUrl` is the canonical search-by-query form
`https://www.google.com/maps/search/?api=1&query=<percent-encoded
query>`; only the unknown and shorturl shapes leave `webUrl` equal to
the input. -/
theorem c2_webUrl_normalization (rl : Str → Int) (url : Str) :
    (∀ q, parseGoogleMapsUrl rl url = .search q →
      (googlemapsBuild rl url).webUrl = canonicalSearch q) ∧
    (∀ q, parseGoogleMapsUrl rl url = .directions q →
      (googlemapsBuild rl url).webUrl = canonicalSearch q) ∧
    (∀ q lat lng z, parseGoogleMapsUrl rl url = .place q lat lng z →
      (googlemapsBuild rl url).webUrl =
        canonicalSearch (if q = [] then lat ++ ",".data ++ lng else q)) ∧
    (∀ lat lng z, parseGoogleMapsUrl rl url = .coords lat lng z →
      (googlemapsBuild rl url).webUrl = canonicalSearch (lat ++ ",".data ++ lng)) ∧
    (parseGoogleMapsUrl rl url = .unknown → (googlemapsBuild rl url).webUrl = url) ∧
    (parseGoogleMapsUrl rl url = .shorturl → (googlemapsBuild rl url).webUrl = url) := by
  refine ⟨?_, ?_, ?_, ?_, ?_, ?_⟩
  · intro q h
    have hq := parse_search_ne_nil rl url q h
    simp only [googlemapsBuild, h, gmFinish]
    rw [if_neg hq]
  · intro q h
    have hq := parse_directions_ne_nil rl url q h
    simp only [googlemapsBuild, h, gmFinish]
    rw [if_neg hq]
  · intro q lat lng z h
    have hne : (if q = [] then lat ++ ",".data ++ lng else q) ≠ [] := by
      split
      · simp
      · assumption
    simp only [googlemapsBuild, h, gmFinish]
    rw [if_neg hne]
  · intro lat lng z h
    have hne : lat ++ ",".data ++ lng ≠ [] := by simp
    simp only [googlemapsBuild, h, gmFinish]
    rw [if_neg hne]
  · intro h
    simp [googlemapsBuild, h, gmFinish]
  · intro h
    simp only [googlemapsBuild, h]

/-- C2 witness: the coords clause of the normalization theorem applied
to the concrete coordinates URL. -/
theorem c2_webUrl_normalization_witness :
    (googlemapsBuild (fun _ => (0 : Int))
        "https://www.google.com/maps/@48.8584,2.2945,17z".data).webUrl =
      canonicalSearch ("48.8584".data ++ ",".data ++ "2.2945".data) :=
  (c2_webUrl_normalization (fun _ => (0 : Int))
      "https://www.google.com/maps/@48.8584,2.2945,17z".data).2.2.2.1
    "48.8584".data "2.2945".data "17".data (by decide)

/-- C3 counterexample: `https://www.google.com/maps/foo` is accepted
by the hostname match and fits none of the five shapes, yet the
handler does not classify it as unknown: `build` returns a full
`googlemaps` result with the generic app link `comgooglemaps://`. -/
theorem c3_no_shape_still_googlemaps :
    googlemapsMatch "https://www.google.com/maps/foo".data = true ∧
    parseGoogleMapsUrl (fun _ => (0 : Int)) "https://www.google.com/maps/foo".data =
      GParse.unknown ∧
    (googlemapsBuild (fun _ => (0 : Int)) "https://www.google.com/maps/foo".data).platform =
      "googlemaps".data ∧
    (googlemapsBuild (fun _ => (0 : Int)) "https://www.google.com/maps/foo".data).platform ≠
      "unknown".data ∧
    (googlemapsBuild (fun _ => (0 : Int)) "https://www.google.com/maps/foo".data).ios =
      "comgooglemaps://".data := by
  decide

/-- C3 (amended): when the parse classifies the URL's shape as
unknown, the handler still builds a complete `googlemaps` result —
webUrl unchanged, generic `comgooglemaps://` iOS link and the default
maps intent URI — rather than yielding no match or an unknown-platform
result; no field is missing. -/
theorem c3_unknown_shape_generic_build (rl : Str → Int) (url : Str)
    (h : parseGoogleMapsUrl rl url = .unknown) :
    googlemapsBuild rl url =
      { webUrl := url
        ios := "comgooglemaps://".data
        android := gmDefaultAndroid
        platform := "googlemaps".data } := by
  simp [googlemapsBuild, h, gmFinish]

/-- C3 witness: the generic-build theorem applied to the concrete
no-shape URL. -/
theorem c3_unknown_shape_generic_build_witness :
    googlemapsBuild (fun _ => (0 : Int)) "https://www.google.com/maps/foo".data =
      { webUrl := "https://www.google.com/maps/foo".data
        ios := "comgooglemaps://".data
        android := gmDefaultAndroid
        platform := "googlemaps".data } :=
  c3_unknown_shape_generic_build (fun _ => (0 : Int))
    "https://www.google.com/maps/foo".data (by decide)

/-- C4 counterexample: the android intent URI built by the zoom
handler for `https://zoom.us/j/1234567890?pwd=abcdef` does not conform
to the full intent grammar of the specification — it has no
`action=`, `category=` or `S.browser_fallback_url=` segments. -/
theorem c4_zoom_intent_not_full_grammar :
    (zoomBuild "https://zoom.us/j/1234567890?pwd=abcdef".data
        "1234567890".data (some "abcdef".data)).android =
      "intent://zoom.us/join?confno=1234567890&pwd=abcdef#Intent;scheme=zoomus;package=us.zoom.videomeetings;end".data ∧
    ¬ IntentGrammarFull
      "intent://zoom.us/join?confno=1234567890&pwd=abcdef#Intent;scheme=zoomus;package=us.zoom.videomeetings;end".data := by
  refine ⟨by decide, ?_⟩
  rintro ⟨aq, sch, pkg, fb, heq⟩
  have hc : containsSeq
      ";action=android.intent.action.VIEW;category=android.intent.category.BROWSABLE;S.browser_fallback_url=".data
      "intent://zoom.us/join?confno=1234567890&pwd=abcdef#Intent;scheme=zoomus;package=us.zoom.videomeetings;end".data = true := by
    rw [heq]
    have := containsSeq_of_parts
      ("intent://".data ++ aq ++ "#Intent;scheme=".data ++ sch ++ ";package=".data ++ pkg)
      ";action=android.intent.action.VIEW;category=android.intent.category.BROWSABLE;S.browser_fallback_url=".data
      (encodeURIComponent fb ++ ";end".data)
    simpa [List.append_assoc] using this
  exact absurd hc (by decide)

set_option maxRecDepth 4000 in
/-- C4 (amended): the maps handler's non-shorturl android URIs all
conform to the full intent grammar of the specification; the maps
shorturl branch emits a plain https URL instead; the zoom and youtube
handlers emit intent URIs of the reduced form
`intent://...#Intent;scheme=<s>;package=<p>;end` without the action,
category and fallback segments. -/
theorem c4_intent_uri_grammars :
    (∀ (rl : Str → Int) (url : Str), parseGoogleMapsUrl rl url ≠ .shorturl →
      IntentGrammarFull (googlemapsBuild rl url).android) ∧
    (∀ (rl : Str → Int) (url : Str), parseGoogleMapsUrl rl url = .shorturl →
      (googlemapsBuild rl url).android = "https://".data ++ dropScheme url) ∧
    (∀ (url id : Str) (pwd : Option Str), ReducedIntent (zoomBuild url id pwd).android) ∧
    (∀ url id : Str, ReducedIntent (youtubeBuild url id).android) := by
  refine ⟨?_, ?_, ?_, ?_⟩
  · intro rl url hne
    cases hp : parseGoogleMapsUrl rl url with
    | shorturl => exact absurd hp hne
    | search q =>
      refine ⟨"0,0?q=".data ++ encodeURIComponent q, "geo".data,
        "com.google.android.apps.maps".data, canonicalSearch q, ?_⟩
      simp only [googlemapsBuild, hp, gmFinish, gmSearchAndroid]
      simp [List.append_assoc]
    | directions q =>
      refine ⟨"0,0?q=".data ++ encodeURIComponent q, "geo".data,
        "com.google.android.apps.maps".data, ?_, ?_⟩
      · exact
          "https://www.google.com/maps/dir/".data ++
          encodeURIComponent (dirFirstTwo q).1 ++ "/".data ++
          encodeURIComponent
            (match (dirFirstTwo q).2 with
             | some e => if e = [] then (dirFirstTwo q).1 else e
             | none => (dirFirstTwo q).1)
      · simp only [googlemapsBuild, hp, gmFinish, gmDirAndroid]
        simp [List.append_assoc]
    | place q lat lng zoom =>
      refine ⟨lat ++ ",".data ++ lng ++ "?q=".data ++
          encodeURIComponent (if q = [] then lat ++ ",".data ++ lng else q),
        "geo".data, "com.google.android.apps.maps".data,
        "https://www.google.com/maps/place/".data ++
          encodeURIComponent (if q = [] then lat ++ ",".data ++ lng else q) ++
          "/@".data ++ lat ++ ",".data ++ lng ++ ",".data ++ zoom ++ "z".data, ?_⟩
      simp only [googlemapsBuild, hp, gmFinish, gmPlaceAndroid]
      simp [List.append_assoc]
    | coords lat lng zoom =>
      refine ⟨lat ++ ",".data ++ lng ++ "?z=".data ++ zoom,
        "geo".data, "com.google.android.apps.maps".data,
        "https://www.google.com/maps/@".data ++ lat ++ ",".data ++ lng ++ ",".data ++
          zoom ++ "z".data, ?_⟩
      simp only [googlemapsBuild, hp, gmFinish, gmCoordsAndroid]
      simp [List.append_assoc]
    | unknown =>
      refine ⟨"0,0".data, "geo".data, "com.google.android.apps.maps".data,
        "https://www.google.com/maps".data, ?_⟩
      simp only [googlemapsBuild, hp, gmFinish, gmDefaultAndroid]
      simp [List.append_assoc]
  · intro rl url hp
    simp only [googlemapsBuild, hp]
  · intro url id pwd
    refine ⟨"zoom.us/join?".data ++ zoomParams id pwd, "zoomus".data,
      "us.zoom.videomeetings".data, ?_⟩
    simp only [zoomBuild]
    simp [List.append_assoc]
  · intro url id
    refine ⟨"watch?v=".data ++ id ++ ytTimestampParam url, "vnd.youtube".data,
      "com.google.android.youtube".data, ?_⟩
    simp only [youtubeBuild]
    simp [List.append_assoc]

/-- C4 witness: the grammar theorem applied at concrete inputs — a
search URL for the full-grammar clause and a short URL for the
plain-https clause. -/
theorem c4_intent_uri_grammars_witness :
    IntentGrammarFull
      (googlemapsBuild (fun _ => (0 : Int))
        "https://www.google.com/maps/search/central+park".data).android ∧
    (googlemapsBuild (fun _ => (0 : Int)) "https://maps.app.goo.gl/abc".data).android =
      "https://".data ++ dropScheme "https://maps.app.goo.gl/abc".data :=
  ⟨c4_intent_uri_grammars.1 (fun _ => (0 : Int))
      "https://www.google.com/maps/search/central+park".data (by decide),
   c4_intent_uri_grammars.2.1 (fun _ => (0 : Int))
      "https://maps.app.goo.gl/abc".data (by decide)⟩

/-!
## Zoom handler invariants and claims C8 / C10
-/

theorem zoomCore_id_digits (t id : Str) (pwd : Option Str)
    (h : zoomCore t = some (id, pwd)) : id.all isDigitC = true := by
  rw [zoomCore] at h
  repeat' split at h
  all_goals try exact Option.noConfusion h
  all_goals
    (injection h with h2
     rw [Prod.mk.injEq] at h2
     obtain ⟨ha, hb⟩ := h2
     exact ha ▸ List.all_takeWhile)

theorem zoomSubAttempt_id_digits (t id : Str) (pwd : Option Str)
    (h : zoomSubAttempt t = some (id, pwd)) : id.all isDigitC = true := by
  rw [zoomSubAttempt] at h
  repeat' split at h
  all_goals try exact Option.noConfusion h
  rename_i rest heq
  exact zoomCore_id_digits rest id pwd h

theorem zoomMatch_id_digits (url id : Str) (pwd : Option Str)
    (h : zoomMatch url = some (id, pwd)) : id.all isDigitC = true := by
  rw [zoomMatch] at h
  split at h
  · exact Option.noConfusion h
  · rw [zoomAfterScheme] at h
    split at h
    · rename_i r heq
      injection h with h2
      subst h2
      exact zoomSubAttempt_id_digits _ id pwd heq
    · exact zoomCore_id_digits _ id pwd h

theorem isDigitC_p_notin (id : Str) (h : id.all isDigitC = true) : 'p' ∉ id := by
  intro hm
  exact absurd (List.all_eq_true.1 h _ hm) (by decide)

theorem pwd_notin_zoom_ios (id : Str) (hdig : id.all isDigitC = true) :
    containsSeq "pwd=".data ("zoomus://zoom.us/join?".data ++ zoomParams id none) = false := by
  apply containsSeq_false_of_head_notin
  intro hm
  rcases List.mem_append.1 hm with hm1 | hm1
  · exact absurd hm1 (by decide)
  · rw [zoomParams] at hm1
    rcases List.mem_append.1 hm1 with hm2 | hm2
    · rcases List.mem_append.1 hm2 with hm3 | hm3
      · exact absurd hm3 (by decide)
      · exact isDigitC_p_notin id hdig hm3
    · exact absurd hm2 (by simp)

theorem pwd_notin_zoom_android (id : Str) (hdig : id.all isDigitC = true) :
    containsSeq "pwd=".data
      ("intent://zoom.us/join?".data ++ zoomParams id none ++
       "#Intent;scheme=zoomus;package=us.zoom.videomeetings;end".data) = false := by
  have hform :
      "intent://zoom.us/join?".data ++ zoomParams id none ++
        "#Intent;scheme=zoomus;package=us.zoom.videomeetings;end".data =
      ("intent://zoom.us/join?".data ++ zoomParams id none) ++
        "#Intent;scheme=zoomus;package=us.zoom.videomeetings;end".data := by
    simp [List.append_assoc]
  rw [hform]
  apply containsSeq_append_false
  · intro hm
    rcases List.mem_append.1 hm with hm1 | hm1
    · exact absurd hm1 (by decide)
    · rw [zoomParams] at hm1
      rcases List.mem_append.1 hm1 with hm2 | hm2
      · rcases List.mem_append.1 hm2 with hm3 | hm3
        · exact absurd hm3 (by decide)
        · exact isDigitC_p_notin id hdig hm3
      · exact absurd hm2 (by simp)
  · decide

/-- C8: for every URL matched by the zoom handler, the parameter
string `confno=<id>[&pwd=<password>]` is reused verbatim inside both
the iOS app-scheme URI and the android intent URI, and when no
password was captured the built URIs contain no `pwd=` segment at all
(never an empty `pwd=`). -/
theorem c8_zoom_confno_params (url id : Str) (pwd : Option Str)
    (h : zoomMatch url = some (id, pwd)) :
    (zoomBuild url id pwd).ios = "zoomus://zoom.us/join?".data ++ zoomParams id pwd ∧
    (zoomBuild url id pwd).android =
      "intent://zoom.us/join?".data ++ zoomParams id pwd ++
      "#Intent;scheme=zoomus;package=us.zoom.videomeetings;end".data ∧
    (pwd = none →
      zoomParams id pwd = "confno=".data ++ id ∧
      containsSeq "pwd=".data (zoomBuild url id pwd).ios = false ∧
      containsSeq "pwd=".data (zoomBuild url id pwd).android = false) ∧
    (∀ p, pwd = some p →
      zoomParams id pwd = "confno=".data ++ id ++ ("&pwd=".data ++ p)) := by
  have hdig := zoomMatch_id_digits url id pwd h
  refine ⟨rfl, rfl, ?_, ?_⟩
  · rintro rfl
    refine ⟨by simp [zoomParams], ?_, ?_⟩
    · exact pwd_notin_zoom_ios id hdig
    · exact pwd_notin_zoom_android id hdig
  · rintro p rfl
    simp [zoomParams]

/-- C8 witness: the parameter theorem applied to the end-to-end
example input, recovering the exact claimed iOS URI. -/
theorem c8_zoom_confno_params_witness :
    zoomMatch "https://zoom.us/j/1234567890?pwd=abcdef".data =
      some ("1234567890".data, some "abcdef".data) ∧
    (zoomBuild "https://zoom.us/j/1234567890?pwd=abcdef".data "1234567890".data
        (some "abcdef".data)).ios =
      "zoomus://zoom.us/join?confno=1234567890&pwd=abcdef".data := by
  refine ⟨by decide, ?_⟩
  have hios := (c8_zoom_confno_params "https://zoom.us/j/1234567890?pwd=abcdef".data
      "1234567890".data (some "abcdef".data) (by decide)).1
  rw [hios]
  decide

/-- C10: on the canonical host, a `pwd` parameter is captured only
when `?pwd=<alnum>` immediately follows the meeting id; for every URL
`https://zoom.us/j/<id><rest>` where `rest` does not begin with
`?pwd=` (for example because another query parameter comes first), the
URL still matches on the meeting id alone and the built iOS and
android URIs contain no `pwd` segment. -/
theorem c10_pwd_only_immediately_after_id (id rest : Str)
    (h1 : id ≠ []) (h2 : id.all isDigitC = true)
    (h3 : ∀ c, rest.head? = some c → isDigitC c = false)
    (h4 : startsWithSeq "?pwd=".data rest = false) :
    zoomMatch ("https://zoom.us/j/".data ++ (id ++ rest)) = some (id, none) ∧
    (zoomBuild ("https://zoom.us/j/".data ++ (id ++ rest)) id none).ios =
      "zoomus://zoom.us/join?".data ++ ("confno=".data ++ id) ∧
    containsSeq "pwd=".data
      (zoomBuild ("https://zoom.us/j/".data ++ (id ++ rest)) id none).ios = false ∧
    containsSeq "pwd=".data
      (zoomBuild ("https://zoom.us/j/".data ++ (id ++ rest)) id none).android = false := by
  refine ⟨?_, ?_, ?_, ?_⟩
  · have estrip : zoomMatch ("https://zoom.us/j/".data ++ (id ++ rest)) =
        zoomCore ("zoom.us/j/".data ++ (id ++ rest)) := rfl
    rw [estrip, zoomCore]
    rw [show ("zoom.us/j/".data ++ (id ++ rest)).drop 10 = id ++ rest from rfl]
    rw [(takeWhile_append_all isDigitC id rest h2 h3).1,
        (takeWhile_append_all isDigitC id rest h2 h3).2]
    rw [startsWithSeq_self_append, h4]
    simp [h1]
  · simp [zoomBuild, zoomParams]
  · exact pwd_notin_zoom_ios id h2
  · exact pwd_notin_zoom_android id h2

/-- C10 witness: the theorem applied to a URL whose `pwd` parameter
comes after another query parameter — it matches with meeting id 123
and no password. -/
theorem c10_pwd_only_immediately_after_id_witness :
    zoomMatch ("https://zoom.us/j/".data ++ ("123".data ++ "?foo=1&pwd=x".data)) =
      some ("123".data, none) ∧
    (zoomBuild ("https://zoom.us/j/".data ++ ("123".data ++ "?foo=1&pwd=x".data))
        "123".data none).ios =
      "zoomus://zoom.us/join?".data ++ ("confno=".data ++ "123".data) :=
  ⟨(c10_pwd_only_immediately_after_id "123".data "?foo=1&pwd=x".data
      (by decide) (by decide) (by decide) (by decide)).1,
   (c10_pwd_only_immediately_after_id "123".data "?foo=1&pwd=x".data
      (by decide) (by decide) (by decide) (by decide)).2.1⟩

/-- C9: the maps parser never propagates a failure.  Every recogniser
of the embedding is a total function by construction (regex scans
return `Option`), and the two exception sources inside
`parseGoogleMapsUrl` — a throwing `new URL` (modelled by
`jsURLQueryStr = none`) and a throwing `decodeURIComponent` — are
caught by the `try/catch`, degrading to the `unknown` classification
instead of escaping. -/
theorem c9_parse_failure_degrades (rl : Str → Int) (url : Str) :
    (isShortUrl url = false → ∀ e : Unit, parseGoogleMapsUrlInner rl url = .error e →
      parseGoogleMapsUrl rl url = .unknown) ∧
    (isShortUrl url = false → jsURLQueryStr url = none →
      parseGoogleMapsUrl rl url = .unknown) := by
  constructor
  · intro hs e he
    simp [parseGoogleMapsUrl, hs, he]
  · intro hs hq
    have hinner : parseGoogleMapsUrlInner rl url = .error () := by
      rw [parseGoogleMapsUrlInner.eq_def, hq]
    simp [parseGoogleMapsUrl, hs, hinner]

/-- C9 witness: a URL whose search-group decoding throws (`%` with no
hex digits) and a URL the URL constructor itself rejects (`https://[`)
both degrade to the unknown classification. -/
theorem c9_parse_failure_degrades_witness :
    parseGoogleMapsUrlInner (fun _ => (0 : Int))
      "https://www.google.com/maps/search/%".data = .error () ∧
    parseGoogleMapsUrl (fun _ => (0 : Int))
      "https://www.google.com/maps/search/%".data = .unknown ∧
    jsURLQueryStr "https://[".data = none ∧
    parseGoogleMapsUrl (fun _ => (0 : Int)) "https://[".data = .unknown := by
  refine ⟨rfl, ?_, by decide, ?_⟩
  · exact (c9_parse_failure_degrades (fun _ => (0 : Int))
      "https://www.google.com/maps/search/%".data).1 (by decide) () rfl
  · exact (c9_parse_failure_degrades (fun _ => (0 : Int))
      "https://[".data).2 (by decide) (by decide)

/-!
## Timestamp-parsing lemmas (claim C7)
-/

theorem auxUnit_run (u : Char) (hu : isDigitC u = false) (D : Str)
    (hD : D.all isDigitC = true) (rest : Str) :
    ∀ acc, auxUnit u acc (D ++ u :: rest) =
      some (D.foldl (fun a c => a * 10 + (c.toNat - 48)) acc) := by
  induction D with
  | nil =>
    intro acc
    simp [auxUnit, hu]
  | cons d D2 ih =>
    rw [List.all_cons, Bool.and_eq_true] at hD
    intro acc
    simp only [List.cons_append, auxUnit, hD.1, if_pos, List.foldl_cons]
    exact ih hD.2 _

theorem scanUnit_run (u : Char) (hu : isDigitC u = false) (D : Str)
    (hD : D.all isDigitC = true) (hne : D ≠ []) (rest : Str) :
    scanUnit u (D ++ u :: rest) = some (digitsVal D) := by
  cases D with
  | nil => exact absurd rfl hne
  | cons d D2 =>
    rw [List.all_cons, Bool.and_eq_true] at hD
    simp only [List.cons_append, scanUnit, hD.1, if_pos, List.append_eq]
    rw [auxUnit_run u hu D2 hD.2 rest (d.toNat - 48)]
    simp [digitsVal]

theorem scan_aux_none (u : Char) (l : Str) (h : u ∉ l) :
    scanUnit u l = none ∧ ∀ acc, auxUnit u acc l = none := by
  induction l with
  | nil => exact ⟨rfl, fun _ => rfl⟩
  | cons c cs ih =>
    have hcu : ¬ c = u := fun e => h (e ▸ List.mem_cons_self c cs)
    have hu2 : u ∉ cs := fun hm => h (List.mem_cons_of_mem _ hm)
    obtain ⟨ihs, iha⟩ := ih hu2
    constructor
    · by_cases hd : isDigitC c = true
      · simp only [scanUnit, hd, if_pos]
        exact iha _
      · simp only [scanUnit, hd, if_neg, Bool.false_eq_true, if_false]
        exact ihs
    · intro acc
      by_cases hd : isDigitC c = true
      · simp only [auxUnit, hd, if_pos]
        exact iha _
      · simp only [auxUnit, hd, Bool.false_eq_true, if_false, hcu]
        exact ihs

theorem scan_skip (u c : Char) (hc : isDigitC c = false) (hcu : ¬ c = u) (D : Str)
    (hD : D.all isDigitC = true) (rest : Str) :
    scanUnit u (D ++ c :: rest) = scanUnit u rest ∧
    ∀ acc, auxUnit u acc (D ++ c :: rest) = scanUnit u rest := by
  induction D with
  | nil =>
    constructor
    · simp [scanUnit, hc]
    · intro acc
      simp [auxUnit, hc, hcu]
  | cons d D2 ih =>
    rw [List.all_cons, Bool.and_eq_true] at hD
    obtain ⟨ihs, iha⟩ := ih hD.2
    constructor
    · simp only [List.cons_append, scanUnit, hD.1, if_pos]
      exact iha _
    · intro acc
      simp only [List.cons_append, auxUnit, hD.1, if_pos]
      exact iha _

theorem ws_false_of_digit (c : Char) (h : isDigitC c = true) : isJsWs c = false := by
  rw [isDigitC, Bool.and_eq_true, decide_eq_true_eq, decide_eq_true_eq] at h
  rw [isJsWs]
  simp only [Bool.or_eq_false_iff, decide_eq_false_iff_not]
  omega

theorem all_nonws_append (D : Str) (hD : D.all isDigitC = true) (c : Char)
    (hc : isJsWs c = false) (rest : Str) (hrest : ∀ x ∈ rest, isJsWs x = false) :
    ∀ x ∈ D ++ c :: rest, isJsWs x = false := by
  intro x hx
  rcases List.mem_append.1 hx with h | h
  · exact ws_false_of_digit x (List.all_eq_true.1 hD x h)
  · rcases List.mem_cons.1 h with h2 | h2
    · exact h2 ▸ hc
    · exact hrest x h2

theorem notin_digits_append (u : Char) (hu : isDigitC u = false) (D : Str)
    (hD : D.all isDigitC = true) (c : Char) (hc : ¬ c = u) (rest : Str)
    (hrest : u ∉ rest) : u ∉ D ++ c :: rest := by
  intro hm
  rcases List.mem_append.1 hm with h | h
  · exact absurd (List.all_eq_true.1 hD u h) (by simp [hu])
  · rcases List.mem_cons.1 h with h2 | h2
    · exact hc h2.symm
    · exact hrest h2

theorem all_digits_false_of_mem_unit (L : Str) (u : Char) (hu : isDigitC u = false)
    (hm : u ∈ L) : L.all isDigitC = false := by
  by_contra hb
  have := List.all_eq_true.1 (Bool.of_not_eq_false hb) u hm
  simp [hu] at this

/-- Optional timestamp unit: digits followed by the unit letter, or
nothing when absent. -/
def optUnit (u : Char) : Option Str → Str
  | none => []
  | some d => d ++ [u]

/-- Value contributed by an optional unit (zero when absent). -/
def optVal : Option Str → Nat
  | none => 0
  | some d => digitsVal d

theorem parseTs_eval (L : Str) (hws : ∀ c ∈ L, isJsWs c = false)
    (hLne : L ≠ []) (hall : L.all isDigitC = false)
    (oh om os : Option Nat)
    (hh : scanUnit 'h' L = oh) (hm : scanUnit 'm' L = om) (hs : scanUnit 's' L = os)
    (hsome : oh ≠ none ∨ om ≠ none ∨ os ≠ none) :
    parseTimestampToSeconds L = oh.getD 0 * 3600 + om.getD 0 * 60 + os.getD 0 := by
  simp only [parseTimestampToSeconds]
  rw [jsTrim_noop L hws, if_neg hLne, if_neg (show ¬(L.all isDigitC = true) by simp [hall]),
      hh, hm, hs]
  rcases oh with _ | vh <;> rcases om with _ | vm <;> rcases os with _ | vs <;> simp_all

theorem parseTs_composite (H M S : Option Str)
    (hH : ∀ d, H = some d → d ≠ [] ∧ d.all isDigitC = true)
    (hM : ∀ d, M = some d → d ≠ [] ∧ d.all isDigitC = true)
    (hS : ∀ d, S = some d → d ≠ [] ∧ d.all isDigitC = true)
    (hne : H ≠ none ∨ M ≠ none ∨ S ≠ none) :
    parseTimestampToSeconds (optUnit 'h' H ++ optUnit 'm' M ++ optUnit 's' S) =
      optVal H * 3600 + optVal M * 60 + optVal S := by
  have hnil : ∀ x ∈ ([] : Str), isJsWs x = false := fun x hx => absurd hx (List.not_mem_nil x)
  rcases H with _ | DH <;> rcases M with _ | DM <;> rcases S with _ | DS
  · simp at hne
  · obtain ⟨hS1, hS2⟩ := hS DS rfl
    have heval := parseTs_eval (DS ++ 's' :: [])
      (all_nonws_append DS hS2 's' (by decide) [] hnil)
      (by simp)
      (all_digits_false_of_mem_unit _ 's' (by decide)
        (List.mem_append.2 (Or.inr (List.mem_cons_self _ _))))
      none none (some (digitsVal DS))
      ((scan_aux_none 'h' _ (notin_digits_append 'h' (by decide) DS hS2 's' (by decide) []
        (List.not_mem_nil _))).1)
      ((scan_aux_none 'm' _ (notin_digits_append 'm' (by decide) DS hS2 's' (by decide) []
        (List.not_mem_nil _))).1)
      (scanUnit_run 's' (by decide) DS hS2 hS1 [])
      (by simp)
    simpa [optUnit, optVal] using heval
  · obtain ⟨hM1, hM2⟩ := hM DM rfl
    have heval := parseTs_eval (DM ++ 'm' :: [])
      (all_nonws_append DM hM2 'm' (by decide) [] hnil)
      (by simp)
      (all_digits_false_of_mem_unit _ 'm' (by decide)
        (List.mem_append.2 (Or.inr (List.mem_cons_self _ _))))
      none (some (digitsVal DM)) none
      ((scan_aux_none 'h' _ (notin_digits_append 'h' (by decide) DM hM2 'm' (by decide) []
        (List.not_mem_nil _))).1)
      (scanUnit_run 'm' (by decide) DM hM2 hM1 [])
      ((scan_aux_none 's' _ (notin_digits_append 's' (by decide) DM hM2 'm' (by decide) []
        (List.not_mem_nil _))).1)
      (by simp)
    simpa [optUnit, optVal] using heval
  · obtain ⟨hM1, hM2⟩ := hM DM rfl
    obtain ⟨hS1, hS2⟩ := hS DS rfl
    have heval := parseTs_eval (DM ++ 'm' :: (DS ++ 's' :: []))
      (all_nonws_append DM hM2 'm' (by decide) _
        (all_nonws_append DS hS2 's' (by decide) [] hnil))
      (by simp)
      (all_digits_false_of_mem_unit _ 'm' (by decide)
        (List.mem_append.2 (Or.inr (List.mem_cons_self _ _))))
      none (some (digitsVal DM)) (some (digitsVal DS))
      ((scan_aux_none 'h' _ (notin_digits_append 'h' (by decide) DM hM2 'm' (by decide) _
        (notin_digits_append 'h' (by decide) DS hS2 's' (by decide) []
          (List.not_mem_nil _)))).1)
      (scanUnit_run 'm' (by decide) DM hM2 hM1 (DS ++ 's' :: []))
      (by
        rw [(scan_skip 's' 'm' (by decide) (by decide) DM hM2 (DS ++ 's' :: [])).1]
        exact scanUnit_run 's' (by decide) DS hS2 hS1 [])
      (by simp)
    simpa [optUnit, optVal] using heval
  · obtain ⟨hH1, hH2⟩ := hH DH rfl
    have heval := parseTs_eval (DH ++ 'h' :: [])
      (all_nonws_append DH hH2 'h' (by decide) [] hnil)
      (by simp)
      (all_digits_false_of_mem_unit _ 'h' (by decide)
        (List.mem_append.2 (Or.inr (List.mem_cons_self _ _))))
      (some (digitsVal DH)) none none
      (scanUnit_run 'h' (by decide) DH hH2 hH1 [])
      (by
        rw [(scan_skip 'm' 'h' (by decide) (by decide) DH hH2 []).1]
        rfl)
      (by
        rw [(scan_skip 's' 'h' (by decide) (by decide) DH hH2 []).1]
        rfl)
      (by simp)
    simpa [optUnit, optVal] using heval
  · obtain ⟨hH1, hH2⟩ := hH DH rfl
    obtain ⟨hS1, hS2⟩ := hS DS rfl
    have heval := parseTs_eval (DH ++ 'h' :: (DS ++ 's' :: []))
      (all_nonws_append DH hH2 'h' (by decide) _
        (all_nonws_append DS hS2 's' (by decide) [] hnil))
      (by simp)
      (all_digits_false_of_mem_unit _ 'h' (by decide)
        (List.mem_append.2 (Or.inr (List.mem_cons_self _ _))))
      (some (digitsVal DH)) none (some (digitsVal DS))
      (scanUnit_run 'h' (by decide) DH hH2 hH1 (DS ++ 's' :: []))
      (by
        rw [(scan_skip 'm' 'h' (by decide) (by decide) DH hH2 (DS ++ 's' :: [])).1]
        exact (scan_aux_none 'm' _ (notin_digits_append 'm' (by decide) DS hS2 's'
          (by decide) [] (List.not_mem_nil _))).1)
      (by
        rw [(scan_skip 's' 'h' (by decide) (by decide) DH hH2 (DS ++ 's' :: [])).1]
        exact scanUnit_run 's' (by decide) DS hS2 hS1 [])
      (by simp)
    simpa [optUnit, optVal] using heval
  · obtain ⟨hH1, hH2⟩ := hH DH rfl
    obtain ⟨hM1, hM2⟩ := hM DM rfl
    have heval := parseTs_eval (DH ++ 'h' :: (DM ++ 'm' :: []))
      (all_nonws_append DH hH2 'h' (by decide) _
        (all_nonws_append DM hM2 'm' (by decide) [] hnil))
      (by simp)
      (all_digits_false_of_mem_unit _ 'h' (by decide)
        (List.mem_append.2 (Or.inr (List.mem_cons_self _ _))))
      (some (digitsVal DH)) (some (digitsVal DM)) none
      (scanUnit_run 'h' (by decide) DH hH2 hH1 (DM ++ 'm' :: []))
      (by
        rw [(scan_skip 'm' 'h' (by decide) (by decide) DH hH2 (DM ++ 'm' :: [])).1]
        exact scanUnit_run 'm' (by decide) DM hM2 hM1 [])
      (by
        rw [(scan_skip 's' 'h' (by decide) (by decide) DH hH2 (DM ++ 'm' :: [])).1,
            (scan_skip 's' 'm' (by decide) (by decide) DM hM2 []).1]
        rfl)
      (by simp)
    simpa [optUnit, optVal] using heval
  · obtain ⟨hH1, hH2⟩ := hH DH rfl
    obtain ⟨hM1, hM2⟩ := hM DM rfl
    obtain ⟨hS1, hS2⟩ := hS DS rfl
    have heval := parseTs_eval (DH ++ 'h' :: (DM ++ 'm' :: (DS ++ 's' :: [])))
      (all_nonws_append DH hH2 'h' (by decide) _
        (all_nonws_append DM hM2 'm' (by decide) _
          (all_nonws_append DS hS2 's' (by decide) [] hnil)))
      (by simp)
      (all_digits_false_of_mem_unit _ 'h' (by decide)
        (List.mem_append.2 (Or.inr (List.mem_cons_self _ _))))
      (some (digitsVal DH)) (some (digitsVal DM)) (some (digitsVal DS))
      (scanUnit_run 'h' (by decide) DH hH2 hH1 (DM ++ 'm' :: (DS ++ 's' :: [])))
      (by
        rw [(scan_skip 'm' 'h' (by decide) (by decide) DH hH2
          (DM ++ 'm' :: (DS ++ 's' :: []))).1]
        exact scanUnit_run 'm' (by decide) DM hM2 hM1 (DS ++ 's' :: []))
      (by
        rw [(scan_skip 's' 'h' (by decide) (by decide) DH hH2
              (DM ++ 'm' :: (DS ++ 's' :: []))).1,
            (scan_skip 's' 'm' (by decide) (by decide) DM hM2 (DS ++ 's' :: [])).1]
        exact scanUnit_run 's' (by decide) DS hS2 hS1 [])
      (by simp)
    simpa [optUnit, optVal] using heval

/-- C7: the four specified evaluations of `parseTimestampToSeconds`
hold; a non-empty bare digit string parses directly as seconds (the
2^53 bound marks the range where JS `parseInt` is exact); a composite
`<h>h<m>m<s>s` form with any non-empty subset of the units present
sums `hours*3600 + minutes*60 + seconds` with zero for absent units
(the 2^41 bounds mark the range where the JS float arithmetic is
exact); and a string whose trimmed form has no `h`/`m`/`s` unit marker
and is not a non-empty digit string yields zero. -/
theorem c7_parseTimestampToSeconds_spec :
    parseTimestampToSeconds "1h2m3s".data = 3723 ∧
    parseTimestampToSeconds "90".data = 90 ∧
    parseTimestampToSeconds "".data = 0 ∧
    parseTimestampToSeconds "abc".data = 0 ∧
    (∀ t : Str, t ≠ [] → t.all isDigitC = true → digitsVal t < 2 ^ 53 →
      parseTimestampToSeconds t = digitsVal t) ∧
    (∀ H M S : Option Str,
      (∀ d, H = some d → d ≠ [] ∧ d.all isDigitC = true ∧ digitsVal d < 2 ^ 41) →
      (∀ d, M = some d → d ≠ [] ∧ d.all isDigitC = true ∧ digitsVal d < 2 ^ 41) →
      (∀ d, S = some d → d ≠ [] ∧ d.all isDigitC = true ∧ digitsVal d < 2 ^ 41) →
      (H ≠ none ∨ M ≠ none ∨ S ≠ none) →
      parseTimestampToSeconds (optUnit 'h' H ++ optUnit 'm' M ++ optUnit 's' S) =
        optVal H * 3600 + optVal M * 60 + optVal S) ∧
    (∀ t : Str, 'h' ∉ jsTrim t → 'm' ∉ jsTrim t → 's' ∉ jsTrim t →
      ¬(jsTrim t ≠ [] ∧ (jsTrim t).all isDigitC = true) →
      parseTimestampToSeconds t = 0) := by
  refine ⟨by decide, by decide, by decide, by decide, ?_, ?_, ?_⟩
  · intro t h1 h2 _
    have hws : ∀ c ∈ t, isJsWs c = false :=
      fun c hc => ws_false_of_digit c (List.all_eq_true.1 h2 c hc)
    simp only [parseTimestampToSeconds]
    rw [jsTrim_noop t hws, if_neg h1, if_pos h2]
  · intro H M S hH hM hS hne
    exact parseTs_composite H M S
      (fun d hd => ⟨(hH d hd).1, (hH d hd).2.1⟩)
      (fun d hd => ⟨(hM d hd).1, (hM d hd).2.1⟩)
      (fun d hd => ⟨(hS d hd).1, (hS d hd).2.1⟩) hne
  · intro t hh hm hs hnot
    simp only [parseTimestampToSeconds]
    by_cases h0 : jsTrim t = []
    · rw [if_pos h0]
    · rw [if_neg h0, if_neg (fun ha => hnot ⟨h0, ha⟩),
          (scan_aux_none 'h' _ hh).1, (scan_aux_none 'm' _ hm).1,
          (scan_aux_none 's' _ hs).1]

/-- C7 witness: the general clauses applied at concrete inputs — a
bare digit string, a composite form with an absent minutes unit, and
a digit-containing string with no unit marker. -/
theorem c7_parseTimestampToSeconds_spec_witness :
    parseTimestampToSeconds "705".data = digitsVal "705".data ∧
    parseTimestampToSeconds
      (optUnit 'h' (some "12".data) ++ optUnit 'm' none ++ optUnit 's' (some "4".data)) =
      optVal (some "12".data) * 3600 + optVal none * 60 + optVal (some "4".data) ∧
    parseTimestampToSeconds "x1y".data = 0 :=
  ⟨c7_parseTimestampToSeconds_spec.2.2.2.2.1 "705".data (by decide) (by decide) (by decide),
   c7_parseTimestampToSeconds_spec.2.2.2.2.2.1 (some "12".data) none (some "4".data)
     (by intro d hd; injection hd with h2; subst h2; exact ⟨by decide, by decide, by decide⟩)
     (by intro d hd; exact Option.noConfusion hd)
     (by intro d hd; injection hd with h2; subst h2; exact ⟨by decide, by decide, by decide⟩)
     (by simp),
   c7_parseTimestampToSeconds_spec.2.2.2.2.2.2 "x1y".data
     (by decide) (by decide) (by decide) (by decide)⟩
